import Mathlib

/-!
Verification development for the odin-fastcs controller core.

The Python sources in `src/odin_fastcs` are embedded shallowly:

* Python scalar values (ints, "floats" written as decimal literals, strings,
  bools, `None`) become the inductive `Scalar`; Python's nested parameter
  dicts become the inductive `Value` (a leaf scalar or an insertion-ordered
  association list of keyed children).
* Python dict operations (`d[k]`, `d[k] = v`, `k in d`, `del d[k]`) become the
  `alist*` helpers on association lists; insertion order is preserved exactly
  as CPython preserves it.
* Code that can raise (`KeyError`, `AttributeError`, `UnboundLocalError`,
  `TypeError`) is embedded in `Option`, with `none` standing for an exception
  propagating out of the function.
* `deepcopy` is the identity on immutable Lean values.
-/

/-- Python scalar values as they appear in parameter trees.  `flt m e`
represents the decimal floating literal `m / 10^e` (e.g. `flt 15 1` is `1.5`);
the claims only ever compare such literals structurally. -/
inductive Scalar where
  | num : Int → Scalar
  | flt : Int → Nat → Scalar
  | str : String → Scalar
  | bool : Bool → Scalar
  | nil : Scalar
deriving DecidableEq, Repr

/-- Python truthiness of a scalar (`bool(x)`). -/
def Scalar.truthy : Scalar → Bool
  | .num n => n != 0
  | .flt m _ => m != 0
  | .str s => s != ""
  | .bool b => b
  | .nil => false

/-- A Python parameter value: a scalar leaf or a dict keyed by strings,
kept as an insertion-ordered association list. -/
inductive Value where
  | leaf : Scalar → Value
  | node : List (String × Value) → Value
deriving Repr

/-- Python truthiness of a value: a dict is truthy iff non-empty. -/
def Value.truthy : Value → Bool
  | .leaf s => s.truthy
  | .node l => !l.isEmpty

/-- Python `cached != new` where `cached` is known to be a non-dict scalar:
a scalar never equals a dict, and scalars compare structurally. -/
def Value.neLeaf (s : Scalar) : Value → Bool
  | .leaf t => s != t
  | .node _ => true

/-- Python `d[k]` on an association list (`none` = `KeyError`). -/
def alistLookup {α : Type} : List (String × α) → String → Option α
  | [], _ => none
  | (k, v) :: rest, key => if k = key then some v else alistLookup rest key

/-- Python `d[k] = v`: replace in place (keeping the key's position) when the
key exists, otherwise append at the end, as CPython dicts do. -/
def alistSet {α : Type} : List (String × α) → String → α → List (String × α)
  | [], key, v => [(key, v)]
  | (k, w) :: rest, key, v =>
      if k = key then (key, v) :: rest else (k, w) :: alistSet rest key v

/-- Python `del d[k]` (the caller checks presence; on a missing key the
embedding's caller returns `none` for the `KeyError`). -/
def alistRemove {α : Type} : List (String × α) → String → List (String × α)
  | [], _ => []
  | (k, w) :: rest, key =>
      if k = key then rest else (k, w) :: alistRemove rest key

/-- Python `d[k]` on a general `Value`: subscripting a non-dict raises
(`TypeError`), a missing key raises (`KeyError`); both are `none`. -/
def Value.getItem : Value → String → Option Value
  | .leaf _, _ => none
  | .node entries, key => alistLookup entries key

/-- Splitting a character list at every occurrence of a separator character,
accumulating the current segment in reverse. -/
def splitCharAux (c : Char) : List Char → List Char → List (List Char)
  | [], acc => [acc.reverse]
  | x :: xs, acc =>
      if x = c then acc.reverse :: splitCharAux c xs []
      else splitCharAux c xs (x :: acc)

/-- Python `s.split("/")` (no maxsplit): always at least one segment. -/
def splitSlash (s : String) : List String :=
  (splitCharAux '/' s.data []).map fun l => ⟨l⟩

/-- Python `"/".join(parts)`. -/
def joinSlash : List String → String
  | [] => ""
  | [p] => p
  | p :: rest => p ++ "/" ++ joinSlash rest

/-- Python `'/' in s`. -/
def containsSlash (s : String) : Bool :=
  s.data.contains '/'

/-- Python `path.split("/")[-1]`: the last `/`-delimited segment. -/
def lastSegment (path : String) : String :=
  (splitSlash path).getLastD ""

/-- Embedding of `utils.resolve_paths` for a single path: `path.split("/", 1)` gives the
adapter name and the sub-path (empty when there is no `/`). -/
def resolvePath (path : String) : String × String × String :=
  match splitSlash path with
  | [] => (path, path, "")
  | [a] => (path, a, "")
  | a :: rest => (path, a, joinSlash rest)

/-- Embedding of `utils.resolve_paths`: resolve each client path into
(full path, adapter, sub-path). -/
def resolve_paths (paths : List String) : List (String × String × String) :=
  paths.map resolvePath

/-- Embedding of `utils.normalize_params`: if the params dict has exactly one key equal to
the last segment of the path, unwrap it to the bare value; other dicts pass
through unchanged.  A non-dict argument hits `params.keys()` and raises
`AttributeError` (`none`). -/
def normalize_params (path : String) (params : Value) : Option Value :=
  match params with
  | .node entries =>
      some (match entries with
        | [(k, v)] => if k = lastSegment path then v else .node [(k, v)]
        | _ => .node entries)
  | .leaf _ => none

/-- Embedding of `utils.denormalize_params`: for a non-dict value and a path containing
`/`, split the path at the last `/` and wrap the value as `{leafName: value}`.
In every other case the function executes `return (path, param_name, params)`
with `param_name` never assigned and raises `UnboundLocalError` (`none`). -/
def denormalize_params (path : String) (params : Value) :
    Option (String × String × Value) :=
  match params with
  | .node _ => none
  | .leaf s =>
      if containsSlash path then
        let parts := splitSlash path
        let requestPath := joinSlash parts.dropLast
        let leafName := parts.getLastD ""
        some (requestPath, leafName, .node [(leafName, .leaf s)])
      else none

mutual

/-- Embedding of `FastCSClient.update_params._build_delta`: recursively diff a cached value
against a new one.  Returns `none` for an exception escaping (looking up a key
of the cached dict in a new value that lacks it), otherwise
`some (result, updatedCached)` where `result = none` models Python returning
`None` and `updatedCached` is the cached value after the in-place mutations.
The leaf branch's `cached = deepcopy(new)` only rebinds a local, so a leaf is
never updated there; a parent dict updates `cached[key]` only when the
recursive result is truthy, and then to the *result* (the pruned delta), not
to the new value. -/
def build_delta : Value → Value → Option (Option Value × Value)
  | .leaf s, newV =>
      if Value.neLeaf s newV then some (some newV, .leaf s)
      else some (none, .leaf s)
  | .node entries, newV =>
      match buildDeltaEntries entries newV with
      | none => none
      | some (subtree, updated) => some (some (.node subtree), .node updated)

/-- The `for key in cached.keys()` loop of `_build_delta`, threading the
subtree being built and the in-place updates to the cached entries. -/
def buildDeltaEntries :
    List (String × Value) → Value →
    Option (List (String × Value) × List (String × Value))
  | [], _ => some ([], [])
  | (k, v) :: rest, newV =>
      match newV.getItem k with
      | none => none
      | some newK =>
        match build_delta v newK with
        | none => none
        | some (res, v') =>
          match buildDeltaEntries rest newV with
          | none => none
          | some (subtree, updated) =>
            match res with
            | some r =>
                if r.truthy then some ((k, r) :: subtree, (k, r) :: updated)
                else some (subtree, (k, v') :: updated)
            | none => some (subtree, (k, v') :: updated)

end

/-- Embedding of `FastCSClient.update_params` acting on the client's parameter cache.
Returns `some (result, newCache)` where `result = none` models Python
returning `None`; `none` overall is an exception from the delta building. -/
def update_params (cache : List (String × Value)) (path : String)
    (newV : Value) (withDelta : Bool) :
    Option (Option Value × List (String × Value)) :=
  if withDelta && (alistLookup cache path).isSome then
    match alistLookup cache path with
    | some cached =>
        match build_delta cached newV with
        | none => none
        | some (res, cached') => some (res, alistSet cache path cached')
    | none => none
  else
    some (some newV, alistSet cache path newV)

/-- Embedding of `FastCSClient`: per-client tracking record.  `last_msg` timestamps are
abstracted to integers supplied by the caller (Python uses `time.time()`). -/
structure FastCSClient where
  id : String
  msg_count : Nat := 0
  last_msg : Int := 0
  param_cache : List (String × Value) := []
  sub_paths : List String := []
deriving Repr

/-- Embedding of `FastCSClient.msg_recvd`: bump the message count and refresh the last
message timestamp. -/
def msg_recvd (now : Int) (c : FastCSClient) : FastCSClient :=
  { c with msg_count := c.msg_count + 1, last_msg := now }

/-- An adapter as the controller sees it: a class name (for
`request_adapters`) and `get`/`put` entry points.  `aget` takes the sub-path
and the metadata flag and returns the response data; `aput` takes the request
path and the decoded request body and returns the echoed response data. -/
structure AdapterT where
  className : String
  aget : String → Bool → Value
  aput : String → Value → Value

/-- The mutable state of `FastCSController` that the message handlers touch:
the registered adapters, the client sessions and the connection counter. -/
structure Controller where
  adapters : List (String × AdapterT)
  clients : List (String × FastCSClient)
  num_clients : Int

/-- A decoded client request (`IpcMessage`) with the parameters the handlers
extract via `get_param` and its defaults: `paths` as a list (get/subscribe),
`paths` as a dict (set), `metadata` and `delta` flags. -/
structure Request where
  msgType : String
  msgVal : String
  msgId : Nat
  pathsList : List String := []
  pathsDict : List (String × Value) := []
  metadata : Bool := false
  delta : Bool := false

/-- A response `IpcMessage`: type (`"ack"`/`"nack"`), echoed value, echoed
id, and response params.  A Python `None` stored in the params appears as
`Value.leaf .nil`. -/
structure Response where
  msgType : String
  msgVal : String
  msgId : Nat
  params : List (String × Value)

/-- The loop body of `FastCSController.process_client_get`: iterate over the
resolved paths, skip adapters that are not registered, call the adapter's
`get`, normalize, feed the client's cache, and store the result (Python
`None` becoming `Value.leaf .nil`) under the full path in the response data.
`none` is an exception escaping (normalize or the delta build raising). -/
def getLoop (adapters : List (String × AdapterT)) (withMeta withDelta : Bool) :
    List String → FastCSClient → List (String × Value) →
    Option (List (String × Value) × FastCSClient)
  | [], client, data => some (data, client)
  | path :: rest, client, data =>
      match alistLookup adapters (resolvePath path).2.1 with
      | none => getLoop adapters withMeta withDelta rest client data
      | some ad =>
          match normalize_params (resolvePath path).2.2
              (ad.aget (resolvePath path).2.2 withMeta) with
          | none => none
          | some params =>
              match update_params client.param_cache path params withDelta with
              | none => none
              | some (res, cache') =>
                  getLoop adapters withMeta withDelta rest
                    { client with param_cache := cache' }
                    (alistSet data path (res.getD (.leaf .nil)))

/-- Embedding of `FastCSController.process_client_get`: extract the request parameters,
force `delta` off when metadata is requested, and run the path loop against
the requesting client's cache. -/
def process_client_get (adapters : List (String × AdapterT))
    (client : FastCSClient) (msg : Request) :
    Option (List (String × Value) × FastCSClient) :=
  let withDelta := if msg.metadata then false else msg.delta
  getLoop adapters msg.metadata withDelta msg.pathsList client []

/-- The loop body of `FastCSController.process_client_set`: iterate over the
resolved paths of the request dict, skip unregistered adapters, denormalize
the sub-path and value, call the adapter's `put`, and extract
`response.data[request_path][param_name]` into the response data.  `none` is
an exception escaping (`UnboundLocalError` from denormalize, or a
`KeyError`/`TypeError` from the extraction). -/
def setLoop (adapters : List (String × AdapterT))
    (pathsDict : List (String × Value)) :
    List String → List (String × Value) → Option (List (String × Value))
  | [], data => some data
  | path :: rest, data =>
      match alistLookup adapters (resolvePath path).2.1 with
      | none => setLoop adapters pathsDict rest data
      | some ad =>
          match alistLookup pathsDict path with
          | none => none
          | some v =>
              match denormalize_params (resolvePath path).2.2 v with
              | none => none
              | some (requestPath, paramName, body) =>
                  match (ad.aput requestPath body).getItem requestPath with
                  | none => none
                  | some sub =>
                      match sub.getItem paramName with
                      | none => none
                      | some result =>
                          setLoop adapters pathsDict rest
                            (alistSet data path result)

/-- Embedding of `FastCSController.process_client_set`: run the set loop over the paths of
the request's `paths` dict, in order. -/
def process_client_set (adapters : List (String × AdapterT))
    (pathsDict : List (String × Value)) : Option (List (String × Value)) :=
  setLoop adapters pathsDict (pathsDict.map Prod.fst) []

/-- The list of `(msg_type, msg_val)` pairs `process_client_msg` recognises. -/
def knownCommands : List (String × String) :=
  [("cmd", "request_adapters"), ("cmd", "get"), ("cmd", "set"),
   ("cmd", "subscribe"), ("cmd", "bye")]

/-- Embedding of `FastCSController.process_client_msg`: build an ack response echoing the
message value and id, dispatch on `(msg_type, msg_val)`, and fall through to
a nack (params left empty) for anything unrecognised.  `none` is an exception
escaping from a handler (or the `KeyError` of `del clients[id]` for an
untracked client). -/
def process_client_msg (c : Controller) (clientId : String) (msg : Request) :
    Option (Response × Controller) :=
  let resp : Response :=
    { msgType := "ack", msgVal := msg.msgVal, msgId := msg.msgId, params := [] }
  match msg.msgType, msg.msgVal with
  | "cmd", "request_adapters" =>
      let adapterList :=
        c.adapters.map fun p => (p.1, Value.leaf (.str p.2.className))
      some ({ resp with params := [("adapters", .node adapterList)] }, c)
  | "cmd", "get" =>
      match alistLookup c.clients clientId with
      | none => none
      | some client =>
          match process_client_get c.adapters client msg with
          | none => none
          | some (data, client') =>
              some ({ resp with params := data },
                    { c with clients := alistSet c.clients clientId client' })
  | "cmd", "set" =>
      match process_client_set c.adapters msg.pathsDict with
      | none => none
      | some data => some ({ resp with params := data }, c)
  | "cmd", "subscribe" => some (resp, c)
  | "cmd", "bye" =>
      match alistLookup c.clients clientId with
      | none => none
      | some _ => some (resp, { c with clients := alistRemove c.clients clientId })
  | _, _ => some ({ resp with msgType := "nack" }, c)

/-- The session-tracking step of `FastCSController.handle_receive`: a message
from an unseen client id creates a fresh `FastCSClient` (without calling
`msg_recvd`); a message from a seen id calls `msg_recvd`. -/
def handleReceiveTrack (clients : List (String × FastCSClient))
    (clientId : String) (now : Int) : List (String × FastCSClient) :=
  match alistLookup clients clientId with
  | none => alistSet clients clientId { id := clientId }
  | some client => alistSet clients clientId (msg_recvd now client)

/-- A sequence of receive events from the same client id, one per timestamp. -/
def receiveSeq (clients : List (String × FastCSClient)) (clientId : String) :
    List Int → List (String × FastCSClient)
  | [] => clients
  | t :: ts => receiveSeq (handleReceiveTrack clients clientId t) clientId ts

/-- The monitor events `FastCSController.handle_monitor` distinguishes:
`IpcTornadoChannel.CONNECTED`, `IpcTornadoChannel.DISCONNECTED`, and any
other event code. -/
inductive MonitorEvent where
  | connected
  | disconnected
  | other
deriving DecidableEq, Repr

/-- Embedding of `FastCSController.handle_monitor`: adjust `num_clients` by the event kind;
the channel name argument is only logged. -/
def handle_monitor (chanName : String) (ev : MonitorEvent) (c : Controller) :
    Controller :=
  match ev with
  | .connected =>
      let _ := chanName
      { c with num_clients := c.num_clients + 1 }
  | .disconnected => { c with num_clients := c.num_clients - 1 }
  | .other => c

/-! ### Helper lemmas about association lists -/

theorem alistLookup_alistSet_self {α : Type} (l : List (String × α))
    (k : String) (v : α) : alistLookup (alistSet l k v) k = some v := by
  induction l with
  | nil => simp [alistSet, alistLookup]
  | cons hd rest ih =>
      obtain ⟨k', w⟩ := hd
      by_cases h : k' = k <;> simp [alistSet, alistLookup, h, ih]

theorem alistSet_fresh {α : Type} (l : List (String × α)) (k : String) (v : α)
    (h : k ∉ l.map Prod.fst) : alistSet l k v = l ++ [(k, v)] := by
  induction l with
  | nil => simp [alistSet]
  | cons hd rest ih =>
      obtain ⟨k', w⟩ := hd
      simp only [List.map_cons, List.mem_cons] at h
      push_neg at h
      simp [alistSet, Ne.symm h.1, ih h.2]

/-! ### Claim theorems -/

/-- C5: `update(p, V, false)` returns `V` unchanged and stores it under `p`,
overwriting any previous entry (lookup afterwards yields `V`); the same holds
for `update(p, V, true)` when `p` has no prior cache entry. -/
theorem update_params_no_delta_overwrites (cache : List (String × Value))
    (path : String) (V : Value) :
    update_params cache path V false = some (some V, alistSet cache path V)
    ∧ alistLookup (alistSet cache path V) path = some V
    ∧ (alistLookup cache path = none →
        update_params cache path V true = some (some V, alistSet cache path V)) := by
  refine ⟨by simp [update_params], alistLookup_alistSet_self cache path V, ?_⟩
  intro h
  simp [update_params, h]

/-- Witness for C5 at a concrete cache, path and value. -/
theorem update_params_no_delta_overwrites_witness :
    update_params [] "p" (Value.leaf (.num 7)) true =
      some (some (Value.leaf (.num 7)), [("p", Value.leaf (.num 7))]) :=
  (update_params_no_delta_overwrites [] "p" (Value.leaf (.num 7))).2.2 rfl

/-- C2 (code bug): with `V = {"a": {"x": 1, "y": 2}}` cached under `p` and
`V2 = {"a": {"x": 1, "y": 3}}` differing at exactly one leaf,
`update(p, V2, true)` returns the delta `{"a": {"y": 3}}` but then stores the
pruned delta as the cached subtree for `"a"`, dropping the unchanged sibling
`"x"`: the cache afterwards is `{"a": {"y": 3}}`, not `V2`. -/
theorem update_params_delta_corrupts_cache :
    update_params
        [("p", Value.node [("a", Value.node
            [("x", Value.leaf (.num 1)), ("y", Value.leaf (.num 2))])])]
        "p"
        (Value.node [("a", Value.node
            [("x", Value.leaf (.num 1)), ("y", Value.leaf (.num 3))])])
        true =
      some (some (Value.node [("a", Value.node [("y", Value.leaf (.num 3))])]),
            [("p", Value.node [("a", Value.node [("y", Value.leaf (.num 3))])])])
    ∧ Value.node [("a", Value.node [("y", Value.leaf (.num 3))])] ≠
        Value.node [("a", Value.node
          [("x", Value.leaf (.num 1)), ("y", Value.leaf (.num 3))])] := by
  refine ⟨rfl, ?_⟩
  simp

/-- C3 (code bug): `denormalize_params` works as specified when the value is
not a dict and the path contains `/`, but the fall-through branch executes
`return (path, param_name, params)` with `param_name` never assigned and so
raises `UnboundLocalError` (modelled as `none`) instead of passing the inputs
through: it raises for a leaf value whose path has no `/` (as happens for
every two-segment set path) and for every dict value. -/
theorem denormalize_params_fall_through_raises :
    denormalize_params "owner/leaf" (Value.leaf (.num 5)) =
      some ("owner", "leaf", Value.node [("leaf", Value.leaf (.num 5))])
    ∧ denormalize_params "vel" (Value.leaf (.flt 15 1)) = none
    ∧ denormalize_params "owner/leaf" (Value.node [("a", Value.leaf (.num 1))]) =
        none :=
  ⟨rfl, rfl, rfl⟩

/-- C6 counterexample: on a tree that is not a Node the claim says normalize
returns it unchanged, but the code calls `params.keys()` on it and raises
`AttributeError` (modelled as `none`). -/
theorem normalize_params_leaf_raises :
    normalize_params "owner/leaf" (Value.leaf (.num 5)) ≠
      some (Value.leaf (.num 5)) :=
  fun h => Option.noConfusion h

/-- C6 (amended): for a Node with exactly one key, normalize unwraps the value
iff the key equals the last `/`-delimited segment of the path; a Node with any
other number of keys passes through unchanged; a non-Node tree raises
`AttributeError` (modelled as `none`). -/
theorem normalize_params_characterization :
    (∀ (path k : String) (v : Value),
      normalize_params path (Value.node [(k, v)]) =
        some (if k = lastSegment path then v else Value.node [(k, v)]))
    ∧ (∀ (path : String) (entries : List (String × Value)),
        entries.length ≠ 1 →
        normalize_params path (Value.node entries) = some (Value.node entries))
    ∧ (∀ (path : String) (s : Scalar),
        normalize_params path (Value.leaf s) = none)
    ∧ normalize_params "owner/leaf" (Value.node [("leaf", Value.leaf (.num 5))]) =
        some (Value.leaf (.num 5)) := by
  refine ⟨fun path k v => rfl, ?_, fun path s => rfl, rfl⟩
  intro path entries h
  match entries with
  | [] => rfl
  | [(k, v)] => simp at h
  | (k₁, v₁) :: (k₂, v₂) :: rest => rfl

/-- Witness for C6's amended characterization at concrete inputs. -/
theorem normalize_params_characterization_witness :
    normalize_params "owner/leaf"
        (Value.node [("a", Value.leaf (.num 1)), ("b", Value.leaf (.num 2))]) =
      some (Value.node [("a", Value.leaf (.num 1)), ("b", Value.leaf (.num 2))]) :=
  normalize_params_characterization.2.1 "owner/leaf"
    [("a", Value.leaf (.num 1)), ("b", Value.leaf (.num 2))] (by decide)

/-- C10: `handle_monitor` changes `num_clients` as a function of the event
only (+1 on connected, -1 on disconnected, unchanged otherwise), touches
neither the sessions map nor the adapters, and behaves identically whichever
channel name the callback was registered with. -/
theorem handle_monitor_event_only (ch : String) (ev : MonitorEvent)
    (c : Controller) :
    (handle_monitor ch ev c).num_clients =
      c.num_clients + (match ev with
        | .connected => 1 | .disconnected => -1 | .other => 0)
    ∧ (handle_monitor ch ev c).clients = c.clients
    ∧ (handle_monitor ch ev c).adapters = c.adapters
    ∧ ∀ ch' : String, handle_monitor ch ev c = handle_monitor ch' ev c := by
  cases ev <;>
    exact ⟨by simp [handle_monitor, Int.sub_eq_add_neg], rfl, rfl, fun ch' => rfl⟩

/-- C1 counterexample: for a set command with `paths = {"m/vel": 1.5}` and a
registered owner `m` whose put echoes the tree `{"vel": 1.5}`, the code calls
`denormalize_params` on the sub-path `"vel"` (which contains no `/`), hits the
unassigned `param_name` and raises, so the set command produces no response
data at all — not the claimed `{"m/vel": 1.5}`. -/
theorem process_client_set_two_segment_fails :
    process_client_set
        [("m", { className := "MotorAdapter",
                 aget := fun _ _ => Value.node [],
                 aput := fun _ _ => Value.node [("vel", Value.leaf (.flt 15 1))] })]
        [("m/vel", Value.leaf (.flt 15 1))] = none
    ∧ (none : Option (List (String × Value))) ≠
        some [("m/vel", Value.leaf (.flt 15 1))] :=
  ⟨rfl, fun h => Option.noConfusion h⟩

/-- C1 (amended): for a set command with `paths = {"m/sub/vel": 1.5}` and a
registered owner `m`: the sub-path `"sub/vel"` is denormalized to
`("sub", "vel", {"vel": 1.5})`, `m.put("sub", {"vel": 1.5})` is called, and
when the owner's echoed tree is `{"sub": {"vel": 1.5}}` the leaf is extracted
as `result["sub"]["vel"]` and the response params are `{"m/sub/vel": 1.5}`. -/
theorem process_client_set_three_segment_scenario :
    denormalize_params "sub/vel" (Value.leaf (.flt 15 1)) =
      some ("sub", "vel", Value.node [("vel", Value.leaf (.flt 15 1))])
    ∧ process_client_set
        [("m", { className := "MotorAdapter",
                 aget := fun _ _ => Value.node [],
                 aput := fun rp body => Value.node [(rp, body)] })]
        [("m/sub/vel", Value.leaf (.flt 15 1))] =
        some [("m/sub/vel", Value.leaf (.flt 15 1))] :=
  ⟨rfl, rfl⟩

/-- C4 counterexample: cached `{"a": {"x": 1}, "b": 2}` under `p` and new
value differing only at the leaf `b`: the delta is `{"b": 3}` and the
unchanged child Node `"a"` is omitted from it entirely (its recursive delta
`{}` is falsy under the `if new_val := ...` walrus test), not included as an
empty Node as the claim states. -/
theorem delta_unchanged_child_node_omitted :
    update_params
        [("p", Value.node [("a", Value.node [("x", Value.leaf (.num 1))]),
                           ("b", Value.leaf (.num 2))])]
        "p"
        (Value.node [("a", Value.node [("x", Value.leaf (.num 1))]),
                     ("b", Value.leaf (.num 3))])
        true =
      some (some (Value.node [("b", Value.leaf (.num 3))]),
            [("p", Value.node [("a", Value.node [("x", Value.leaf (.num 1))]),
                               ("b", Value.leaf (.num 3))])])
    ∧ (Value.node [("b", Value.leaf (.num 3))]).getItem "a" = none :=
  ⟨rfl, rfl⟩

/-- Every entry the `_build_delta` dict branch puts into its result subtree
passed the walrus truthiness test. -/
theorem buildDeltaEntries_truthy :
    ∀ (entries : List (String × Value)) (newV : Value)
      (subtree updated : List (String × Value)),
      buildDeltaEntries entries newV = some (subtree, updated) →
      ∀ q ∈ subtree, q.2.truthy = true := by
  intro entries
  induction entries with
  | nil =>
      intro newV sub upd h q hq
      simp only [buildDeltaEntries, Option.some.injEq, Prod.mk.injEq] at h
      rw [← h.1] at hq
      simp at hq
  | cons hd rest ih =>
      obtain ⟨k, v⟩ := hd
      intro newV sub upd h q hq
      simp only [buildDeltaEntries] at h
      split at h
      · exact Option.noConfusion h
      · split at h
        · exact Option.noConfusion h
        · split at h
          · exact Option.noConfusion h
          · rename_i res v' heqd sub' upd' heqr
            split at h
            · rename_i r hres
              split at h
              · rename_i htr
                simp only [Option.some.injEq, Prod.mk.injEq] at h
                rw [← h.1] at hq
                rcases List.mem_cons.mp hq with hq1 | hq2
                · rw [hq1]; exact htr
                · exact ih newV sub' upd' heqr q hq2
              · simp only [Option.some.injEq, Prod.mk.injEq] at h
                rw [← h.1] at hq
                exact ih newV sub' upd' heqr q hq
            · simp only [Option.some.injEq, Prod.mk.injEq] at h
              rw [← h.1] at hq
              exact ih newV sub' upd' heqr q hq

/-- C4 (amended): diffing a cached Node, every entry of the returned delta
Node has a truthy value; a cached child Node none of whose leaves changed
yields the falsy delta `{}` and is therefore omitted from its parent, rather
than appearing as an empty Node — only the top-level delta can be empty. -/
theorem delta_node_entries_truthy (entries : List (String × Value))
    (newV : Value) (subtree updated : List (String × Value))
    (h : build_delta (Value.node entries) newV =
        some (some (Value.node subtree), Value.node updated)) :
    ∀ q ∈ subtree, q.2.truthy = true := by
  simp only [build_delta] at h
  split at h
  · exact Option.noConfusion h
  · rename_i sub' upd' heq
    simp only [Option.some.injEq, Prod.mk.injEq, Value.node.injEq] at h
    rw [← h.1]
    exact buildDeltaEntries_truthy entries newV sub' upd' heq

/-- Witness for C4's amended statement: in the delta of the C4 scenario the
surviving entry `("b", 3)` is truthy. -/
theorem delta_node_entries_truthy_witness :
    (Value.leaf (Scalar.num 3)).truthy = true :=
  delta_node_entries_truthy
    [("a", Value.node [("x", Value.leaf (.num 1))]), ("b", Value.leaf (.num 2))]
    (Value.node [("a", Value.node [("x", Value.leaf (.num 1))]),
                 ("b", Value.leaf (.num 3))])
    [("b", Value.leaf (.num 3))]
    [("a", Value.node [("x", Value.leaf (.num 1))]), ("b", Value.leaf (.num 3))]
    rfl
    ("b", Value.leaf (.num 3)) (List.mem_singleton.mpr rfl)

/-- Message counting along a sequence of receive events from a client id that
is already tracked: each event calls `msg_recvd` once. -/
theorem receiveSeq_msg_count :
    ∀ (ts : List Int) (clients : List (String × FastCSClient)) (id : String)
      (rec : FastCSClient), alistLookup clients id = some rec →
      (alistLookup (receiveSeq clients id ts) id).map FastCSClient.msg_count =
        some (rec.msg_count + ts.length) := by
  intro ts
  induction ts with
  | nil => intro clients id rec h; simp [receiveSeq, h]
  | cons t ts ih =>
      intro clients id rec h
      have hstep : handleReceiveTrack clients id t =
          alistSet clients id (msg_recvd t rec) := by
        simp [handleReceiveTrack, h]
      rw [receiveSeq, hstep]
      have h2 := alistLookup_alistSet_self clients id (msg_recvd t rec)
      rw [ih _ id (msg_recvd t rec) h2]
      simp [msg_recvd]
      omega

/-- C9: the first message from an unseen client id creates its session with
`msg_count` 0 and `last_msg` 0 (`msg_recvd` is not invoked for it); only
subsequent messages from the now-seen id call `msg_recvd`, so after `N`
messages from one id the session's `msg_count` equals `N - 1`. -/
theorem first_message_session_counts (clients : List (String × FastCSClient))
    (id : String) (t : Int) (ts : List Int)
    (h : alistLookup clients id = none) :
    alistLookup (handleReceiveTrack clients id t) id = some { id := id }
    ∧ ({ id := id } : FastCSClient).msg_count = 0
    ∧ ({ id := id } : FastCSClient).last_msg = 0
    ∧ (alistLookup (receiveSeq clients id (t :: ts)) id).map
        FastCSClient.msg_count = some ((t :: ts).length - 1) := by
  have hstep : handleReceiveTrack clients id t =
      alistSet clients id { id := id } := by
    simp [handleReceiveTrack, h]
  refine ⟨by rw [hstep]; exact alistLookup_alistSet_self clients id _, rfl, rfl, ?_⟩
  rw [receiveSeq, hstep]
  rw [receiveSeq_msg_count ts _ id { id := id }
        (alistLookup_alistSet_self clients id _)]
  simp

/-- Witness for C9: three messages from a fresh client id leave its
`msg_count` at 2. -/
theorem first_message_session_counts_witness :
    (alistLookup (receiveSeq [] "c1" [5, 6, 7]) "c1").map
        FastCSClient.msg_count = some 2 :=
  (first_message_session_counts [] "c1" 5 [6, 7] rfl).2.2.2


/-- Unregistered owners are invisible to the get loop: processing a path list
is the same as processing only its registered paths. -/
theorem getLoop_filter_registered (adapters : List (String × AdapterT))
    (wm wd : Bool) :
    ∀ (paths : List String) (client : FastCSClient)
      (data : List (String × Value)),
      getLoop adapters wm wd paths client data =
        getLoop adapters wm wd
          (paths.filter fun p => (alistLookup adapters (resolvePath p).2.1).isSome)
          client data := by
  intro paths
  induction paths with
  | nil => intro client data; rfl
  | cons p rest ih =>
      intro client data
      cases hado : alistLookup adapters (resolvePath p).2.1 with
      | none =>
          simp only [getLoop, hado, List.filter_cons, Option.isSome_none,
            Bool.false_eq_true, if_false]
          exact ih client data
      | some ad =>
          simp only [getLoop, hado, List.filter_cons, Option.isSome_some,
            if_true]
          cases hn : normalize_params (resolvePath p).2.2
              (ad.aget (resolvePath p).2.2 wm) with
          | none => simp only [hn]
          | some params =>
              simp only [hn]
              cases hu : update_params client.param_cache p params wd with
              | none => simp only [hu]
              | some pr =>
                  obtain ⟨res, cache'⟩ := pr
                  simp only [hu]
                  exact ih _ _

/-- On success, the get loop's response keys are the incoming keys followed by
exactly the requested paths whose owner is registered, in order. -/
theorem getLoop_keys (adapters : List (String × AdapterT)) (wm wd : Bool) :
    ∀ (paths : List String) (client : FastCSClient)
      (data result : List (String × Value)) (client' : FastCSClient),
      paths.Nodup → (∀ p ∈ paths, p ∉ data.map Prod.fst) →
      getLoop adapters wm wd paths client data = some (result, client') →
      result.map Prod.fst = data.map Prod.fst ++
        paths.filter fun p => (alistLookup adapters (resolvePath p).2.1).isSome := by
  intro paths
  induction paths with
  | nil =>
      intro client data result client' _ _ h
      simp only [getLoop, Option.some.injEq, Prod.mk.injEq] at h
      rw [← h.1]
      simp
  | cons p rest ih =>
      intro client data result client' hnd hfresh h
      obtain ⟨hp, hrest⟩ := List.nodup_cons.mp hnd
      cases hado : alistLookup adapters (resolvePath p).2.1 with
      | none =>
          simp only [getLoop, hado] at h
          rw [ih client data result client' hrest
                (fun q hq => hfresh q (List.mem_cons_of_mem p hq)) h]
          simp [List.filter_cons, hado]
      | some ad =>
          simp only [getLoop, hado] at h
          cases hn : normalize_params (resolvePath p).2.2
              (ad.aget (resolvePath p).2.2 wm) with
          | none => rw [hn] at h; exact Option.noConfusion h
          | some params =>
              simp only [hn] at h
              cases hu : update_params client.param_cache p params wd with
              | none => rw [hu] at h; exact Option.noConfusion h
              | some pr =>
                  obtain ⟨res, cache'⟩ := pr
                  simp only [hu] at h
                  have hpfresh : p ∉ data.map Prod.fst :=
                    hfresh p (List.mem_cons_self p rest)
                  have hkeys : (alistSet data p (res.getD (.leaf .nil))).map
                      Prod.fst = data.map Prod.fst ++ [p] := by
                    rw [alistSet_fresh data p _ hpfresh]
                    simp
                  have hfresh' : ∀ q ∈ rest,
                      q ∉ (alistSet data p (res.getD (.leaf .nil))).map Prod.fst := by
                    intro q hq
                    rw [hkeys]
                    simp only [List.mem_append, List.mem_singleton]
                    push_neg
                    exact ⟨hfresh q (List.mem_cons_of_mem p hq),
                      fun hqp => hp (hqp ▸ hq)⟩
                  rw [ih _ _ result client' hrest hfresh' h, hkeys]
                  simp [List.filter_cons, hado]

/-- Unregistered owners are invisible to the set loop: processing a path list
is the same as processing only its registered paths. -/
theorem setLoop_filter_registered (adapters : List (String × AdapterT))
    (pathsDict : List (String × Value)) :
    ∀ (paths : List String) (data : List (String × Value)),
      setLoop adapters pathsDict paths data =
        setLoop adapters pathsDict
          (paths.filter fun p => (alistLookup adapters (resolvePath p).2.1).isSome)
          data := by
  intro paths
  induction paths with
  | nil => intro data; rfl
  | cons p rest ih =>
      intro data
      cases hado : alistLookup adapters (resolvePath p).2.1 with
      | none =>
          simp only [setLoop, hado, List.filter_cons, Option.isSome_none,
            Bool.false_eq_true, if_false]
          exact ih data
      | some ad =>
          simp only [setLoop, hado, List.filter_cons, Option.isSome_some,
            if_true]
          cases hv : alistLookup pathsDict p with
          | none => simp only [hv]
          | some v =>
              simp only [hv]
              cases hd : denormalize_params (resolvePath p).2.2 v with
              | none => simp only [hd]
              | some trip =>
                  obtain ⟨requestPath, paramName, body⟩ := trip
                  simp only [hd]
                  cases hs : (ad.aput requestPath body).getItem requestPath with
                  | none => simp only [hs]
                  | some sub =>
                      simp only [hs]
                      cases hr : sub.getItem paramName with
                      | none => simp only [hr]
                      | some result =>
                          simp only [hr]
                          exact ih _

/-- On success, the set loop's response keys are the incoming keys followed by
exactly the requested paths whose owner is registered, in order. -/
theorem setLoop_keys (adapters : List (String × AdapterT))
    (pathsDict : List (String × Value)) :
    ∀ (paths : List String) (data result : List (String × Value)),
      paths.Nodup → (∀ p ∈ paths, p ∉ data.map Prod.fst) →
      setLoop adapters pathsDict paths data = some result →
      result.map Prod.fst = data.map Prod.fst ++
        paths.filter fun p => (alistLookup adapters (resolvePath p).2.1).isSome := by
  intro paths
  induction paths with
  | nil =>
      intro data result _ _ h
      simp only [setLoop, Option.some.injEq] at h
      rw [← h]
      simp
  | cons p rest ih =>
      intro data result hnd hfresh h
      obtain ⟨hp, hrest⟩ := List.nodup_cons.mp hnd
      cases hado : alistLookup adapters (resolvePath p).2.1 with
      | none =>
          simp only [setLoop, hado] at h
          rw [ih data result hrest
                (fun q hq => hfresh q (List.mem_cons_of_mem p hq)) h]
          simp [List.filter_cons, hado]
      | some ad =>
          simp only [setLoop, hado] at h
          cases hv : alistLookup pathsDict p with
          | none => rw [hv] at h; exact Option.noConfusion h
          | some v =>
              simp only [hv] at h
              cases hd : denormalize_params (resolvePath p).2.2 v with
              | none => rw [hd] at h; exact Option.noConfusion h
              | some trip =>
                  obtain ⟨requestPath, paramName, body⟩ := trip
                  simp only [hd] at h
                  cases hs : (ad.aput requestPath body).getItem requestPath with
                  | none => rw [hs] at h; exact Option.noConfusion h
                  | some sub =>
                      simp only [hs] at h
                      cases hr : sub.getItem paramName with
                      | none => rw [hr] at h; exact Option.noConfusion h
                      | some res =>
                          simp only [hr] at h
                          have hpfresh : p ∉ data.map Prod.fst :=
                            hfresh p (List.mem_cons_self p rest)
                          have hkeys : (alistSet data p res).map Prod.fst =
                              data.map Prod.fst ++ [p] := by
                            rw [alistSet_fresh data p _ hpfresh]
                            simp
                          have hfresh' : ∀ q ∈ rest,
                              q ∉ (alistSet data p res).map Prod.fst := by
                            intro q hq
                            rw [hkeys]
                            simp only [List.mem_append, List.mem_singleton]
                            push_neg
                            exact ⟨hfresh q (List.mem_cons_of_mem p hq),
                              fun hqp => hp (hqp ▸ hq)⟩
                          rw [ih _ result hrest hfresh' h, hkeys]
                          simp [List.filter_cons, hado]

/-- C7: a requested get/set path whose owner is not registered is silently
skipped: processing a request is the same as processing only its registered
paths (so an unknown owner raises nothing), and on success the response holds
entries exactly for the requested paths whose owner is registered. -/
theorem unknown_owner_paths_skipped (adapters : List (String × AdapterT))
    (client : FastCSClient) (msg : Request)
    (pathsDict : List (String × Value)) :
    (process_client_get adapters client msg =
      process_client_get adapters client
        { msg with pathsList := msg.pathsList.filter fun p =>
            (alistLookup adapters (resolvePath p).2.1).isSome })
    ∧ (msg.pathsList.Nodup →
        ∀ (data : List (String × Value)) (client' : FastCSClient),
        process_client_get adapters client msg = some (data, client') →
        data.map Prod.fst = msg.pathsList.filter fun p =>
          (alistLookup adapters (resolvePath p).2.1).isSome)
    ∧ (process_client_set adapters pathsDict =
        setLoop adapters pathsDict
          ((pathsDict.map Prod.fst).filter fun p =>
            (alistLookup adapters (resolvePath p).2.1).isSome) [])
    ∧ ((pathsDict.map Prod.fst).Nodup →
        ∀ data : List (String × Value),
        process_client_set adapters pathsDict = some data →
        data.map Prod.fst = (pathsDict.map Prod.fst).filter fun p =>
          (alistLookup adapters (resolvePath p).2.1).isSome) := by
  refine ⟨?_, ?_, ?_, ?_⟩
  · simp only [process_client_get]
    exact getLoop_filter_registered adapters msg.metadata _ msg.pathsList client []
  · intro hnd data client' h
    have := getLoop_keys adapters msg.metadata
      (if msg.metadata then false else msg.delta) msg.pathsList client [] data
      client' hnd (by simp) h
    simpa using this
  · simp only [process_client_set]
    exact setLoop_filter_registered adapters pathsDict (pathsDict.map Prod.fst) []
  · intro hnd data h
    have := setLoop_keys adapters pathsDict (pathsDict.map Prod.fst) [] data
      hnd (by simp) h
    simpa using this

/-- Witness for C7 at a concrete request: one registered and one unknown
owner; the response holds only the registered path. -/
theorem unknown_owner_paths_skipped_witness :
    process_client_get
        [("m", { className := "MotorAdapter",
                 aget := fun _ _ => Value.node [("pos", Value.leaf (.num 3))],
                 aput := fun _ body => body })]
        { id := "c1" }
        { msgType := "cmd", msgVal := "get", msgId := 1,
          pathsList := ["m/pos", "ghost/pos"] } =
      some ([("m/pos", Value.leaf (.num 3))],
            { id := "c1",
              param_cache := [("m/pos", Value.leaf (.num 3))] })
    ∧ [("m/pos", Value.leaf (Scalar.num 3))].map Prod.fst =
        ["m/pos", "ghost/pos"].filter fun p =>
          (alistLookup
            [("m", ({ className := "MotorAdapter",
                      aget := fun _ _ => Value.node [("pos", Value.leaf (.num 3))],
                      aput := fun _ body => body } : AdapterT))]
            (resolvePath p).2.1).isSome :=
  ⟨rfl,
    (unknown_owner_paths_skipped
      [("m", { className := "MotorAdapter",
               aget := fun _ _ => Value.node [("pos", Value.leaf (.num 3))],
               aput := fun _ body => body })]
      { id := "c1" }
      { msgType := "cmd", msgVal := "get", msgId := 1,
        pathsList := ["m/pos", "ghost/pos"] } []).2.1
      (by decide)
      [("m/pos", Value.leaf (.num 3))]
      { id := "c1", param_cache := [("m/pos", Value.leaf (.num 3))] }
      rfl⟩

/-- C8: a decoded command whose `(msg_type, msg_val)` pair matches none of the
recognised commands yields a nack response echoing the request's id, with
empty params, and leaves the controller state unchanged. -/
theorem unknown_command_nacks (c : Controller) (clientId : String)
    (msg : Request) (h : (msg.msgType, msg.msgVal) ∉ knownCommands) :
    process_client_msg c clientId msg =
      some ({ msgType := "nack", msgVal := msg.msgVal, msgId := msg.msgId,
              params := [] }, c) := by
  simp only [knownCommands, List.mem_cons, List.not_mem_nil, or_false,
    Prod.mk.injEq, not_or] at h
  simp only [process_client_msg]
  split <;> simp_all

/-- Witness for C8: an unrecognised verb gets a nack with the request's id
and empty params. -/
theorem unknown_command_nacks_witness :
    process_client_msg { adapters := [], clients := [], num_clients := 0 } "c1"
        { msgType := "cmd", msgVal := "frobnicate", msgId := 42 } =
      some ({ msgType := "nack", msgVal := "frobnicate", msgId := 42,
              params := [] },
            { adapters := [], clients := [], num_clients := 0 }) :=
  unknown_command_nacks
    { adapters := [], clients := [], num_clients := 0 } "c1"
    { msgType := "cmd", msgVal := "frobnicate", msgId := 42 } (by decide)
